import Mathlib

/-!
Verification of the Aurex PoW-blockchain marketplace core against its
natural-language specification.  The definitions below are a shallow
embedding of the Python source:

* `DB_ORM.transfer`                     → `Aurex.transfer`
* `server_moudle._set_tx_status`        → `Aurex.setTxStatusInfo` / `Aurex.mapSetTxStatus`
* `server_moudle._tx_timeout_worker`    → `Aurex.txTimeoutSelect`
* `server_moudle._tx_worker`            → `Aurex.txWorkerOutcome`
* `gateway_server.handle` (submissions) → `Aurex.gatewaySubmitPurchase`
* `gateway_server.handle` (confirms)    → `Aurex.gatewayConfirmStep` / `Aurex.gatewayRun`
* `server_moudle._start_block_confirmation_listener`
                                        → `Aurex.processConfTx` / `Aurex.appProcessConfirmation`
* `pow_node.hashing_process`            → `Aurex.hashingProcess`
* `pow_node._handle_new_block`          → `Aurex.handleNewBlock`
* `pow_node._on_block_mined`            → `Aurex.onBlockMined`
* `db_init.init_node_database` schema   → `Aurex.insertBlockTxs` (PRIMARY KEY on "index")

Machine floats of the source are modelled as exact rationals; SQLite rows
are modelled as association lists keyed by their primary key; the SHA-256
and RSA primitives are abstracted as function parameters (the handlers
under verification never recompute them except where shown).
-/

namespace Aurex

/-- Python `s.startswith(t)` on our string model. -/
def strStartsWith (s t : String) : Bool :=
  t.data.isPrefixOf s.data

/-- `'0' * n` : the difficulty target string of the source. -/
def zeros (n : Nat) : String :=
  String.mk (List.replicate n '0')

/-- `SELECT … WHERE key = ?` on a table keyed by a string primary key. -/
def dbLookup {β : Type} (rows : List (String × β)) (k : String) : Option β :=
  match rows with
  | [] => none
  | p :: rest => if p.1 = k then some p.2 else dbLookup rest k

/-- `UPDATE … SET value WHERE key = ?` on a table keyed by a string
primary key (updates every matching row, as SQL does). -/
def dbUpdate {β : Type} (rows : List (String × β)) (k : String) (v : β) :
    List (String × β) :=
  rows.map (fun p => if p.1 = k then (k, v) else p)

/-! ## Shared wallet store (`DB_ORM.py`, `transfer`)

`users` is the `users` table projected to `(username, wallet_balance)`;
`username` is the primary key.  `wallet_updated_at` is bookkeeping only and
is dropped from the model. -/

/-- `DB_ORM.transfer(from_user, to_user, amount)`: guard `amount <= 0`,
read both balances inside `BEGIN IMMEDIATE`, reject missing wallets and
`bal_from < amount`, otherwise debit the sender and credit the receiver and
commit.  The returned triple is (users table after commit/rollback,
success flag, message). -/
def transfer (users : List (String × ℚ)) (from_user to_user : String)
    (amount : ℚ) : List (String × ℚ) × Bool × String :=
  if amount ≤ 0 then
    (users, false, "Amount must be positive")
  else
    match dbLookup users from_user, dbLookup users to_user with
    | none, _ => (users, false, "Wallet not found: " ++ from_user)
    | some _, none => (users, false, "Wallet not found: " ++ to_user)
    | some bal_from, some bal_to =>
      if bal_from < amount then
        (users, false,
          "Insufficient balance: " ++ from_user ++ " has " ++ toString bal_from)
      else
        (dbUpdate (dbUpdate users from_user (bal_from - amount))
           to_user (bal_to + amount),
         true,
         "Transferred " ++ toString amount ++ " from " ++ from_user ++
           " to " ++ to_user)

/-- Total of all wallet balances (for the conservation property). -/
def totalBalance (users : List (String × ℚ)) : ℚ :=
  (users.map Prod.snd).sum

end Aurex

namespace Aurex

/-! Helper lemmas about the primary-key table operations. -/

theorem dbLookup_cons {β : Type} (p : String × β) (rest : List (String × β))
    (k : String) :
    dbLookup (p :: rest) k = if p.1 = k then some p.2 else dbLookup rest k :=
  rfl

theorem dbUpdate_cons {β : Type} (p : String × β) (rest : List (String × β))
    (k : String) (v : β) :
    dbUpdate (p :: rest) k v =
      (if p.1 = k then (k, v) else p) :: dbUpdate rest k v :=
  rfl

theorem totalBalance_cons (p : String × ℚ) (rest : List (String × ℚ)) :
    totalBalance (p :: rest) = p.2 + totalBalance rest := by
  simp [totalBalance]

theorem dbLookup_dbUpdate_self {β : Type} (rows : List (String × β))
    (k : String) (v : β) (h : (dbLookup rows k).isSome) :
    dbLookup (dbUpdate rows k v) k = some v := by
  induction rows with
  | nil => simp [dbLookup] at h
  | cons p rest ih =>
    rw [dbUpdate_cons, dbLookup_cons]
    by_cases hp : p.1 = k
    · simp [hp]
    · rw [dbLookup_cons] at h
      simp only [hp, if_false]
      exact ih (by simpa [hp] using h)

theorem dbLookup_dbUpdate_other {β : Type} (rows : List (String × β))
    (k k' : String) (v : β) (hkk : k' ≠ k) :
    dbLookup (dbUpdate rows k v) k' = dbLookup rows k' := by
  induction rows with
  | nil => rfl
  | cons p rest ih =>
    rw [dbUpdate_cons, dbLookup_cons, dbLookup_cons]
    by_cases hp : p.1 = k
    · simp only [hp, if_true]
      have : k ≠ k' := fun hkk' => hkk (hkk'.symm)
      simp only [this, if_false]
      rw [ih]
    · simp only [hp, if_false]
      by_cases hv : p.1 = k'
      · simp [hv]
      · simp only [hv, if_false]
        exact ih

theorem dbLookup_eq_none_of_not_mem {β : Type} (rows : List (String × β))
    (k : String) (h : k ∉ rows.map Prod.fst) : dbLookup rows k = none := by
  induction rows with
  | nil => rfl
  | cons p rest ih =>
    rw [dbLookup_cons]
    have hp : p.1 ≠ k := by
      intro hpk
      exact h (by rw [← hpk]; exact List.mem_cons_self _ _)
    simp only [hp, if_false]
    exact ih (fun hmem => h (List.mem_cons_of_mem _ hmem))

theorem dbUpdate_absent {β : Type} (rows : List (String × β)) (k : String)
    (v : β) (h : dbLookup rows k = none) : dbUpdate rows k v = rows := by
  induction rows with
  | nil => rfl
  | cons p rest ih =>
    rw [dbLookup_cons] at h
    by_cases hp : p.1 = k
    · simp [hp] at h
    · rw [dbUpdate_cons]
      simp only [hp, if_false]
      rw [ih (by simpa [hp] using h)]

theorem totalBalance_dbUpdate (rows : List (String × ℚ)) (k : String)
    (v c : ℚ) (hnd : (rows.map Prod.fst).Nodup) (h : dbLookup rows k = some c) :
    totalBalance (dbUpdate rows k v) = totalBalance rows - c + v := by
  induction rows with
  | nil => simp [dbLookup] at h
  | cons p rest ih =>
    rw [List.map_cons, List.nodup_cons] at hnd
    obtain ⟨hp, hrest⟩ := hnd
    rw [dbLookup_cons] at h
    rw [dbUpdate_cons]
    by_cases hpu : p.1 = k
    · have hc : p.2 = c := by simpa [hpu] using h
      have hrestu : dbLookup rest k = none := by
        apply dbLookup_eq_none_of_not_mem
        rw [← hpu]
        exact hp
      rw [dbUpdate_absent rest k v hrestu]
      simp only [hpu, if_true]
      rw [totalBalance_cons, totalBalance_cons, hc]
      ring
    · have h' : dbLookup rest k = some c := by simpa [hpu] using h
      simp only [hpu, if_false]
      rw [totalBalance_cons, totalBalance_cons, ih hrest h']
      ring

theorem dbUpdate_keys {β : Type} (rows : List (String × β)) (k : String)
    (v : β) : (dbUpdate rows k v).map Prod.fst = rows.map Prod.fst := by
  induction rows with
  | nil => rfl
  | cons p rest ih =>
    rw [dbUpdate_cons, List.map_cons, List.map_cons, ih]
    by_cases hp : p.1 = k
    · simp [hp]
    · simp [hp]

/-- Claim C3: `transfer(from, to, amount)` on two distinct existing wallets:
with `amount > 0`, if `from.balance ≥ amount` the call succeeds, debits
exactly `amount` from the sender, credits exactly `amount` to the receiver
(total balance conserved); if `from.balance < amount` it fails with the
`Insufficient balance` message and the table is unchanged; the boundary
`from.balance = amount` succeeds and leaves the sender at 0. -/
theorem transfer_correct (users : List (String × ℚ))
    (from_user to_user : String) (amount bf bt : ℚ)
    (hnd : (users.map Prod.fst).Nodup)
    (hne : from_user ≠ to_user)
    (hf : dbLookup users from_user = some bf)
    (ht : dbLookup users to_user = some bt)
    (hpos : 0 < amount) :
    (amount ≤ bf →
      (transfer users from_user to_user amount).2.1 = true ∧
      dbLookup (transfer users from_user to_user amount).1 from_user
        = some (bf - amount) ∧
      dbLookup (transfer users from_user to_user amount).1 to_user
        = some (bt + amount) ∧
      totalBalance (transfer users from_user to_user amount).1
        = totalBalance users) ∧
    (bf < amount →
      (transfer users from_user to_user amount).2.1 = false ∧
      (transfer users from_user to_user amount).2.2 =
        "Insufficient balance: " ++ from_user ++ " has " ++ toString bf ∧
      (transfer users from_user to_user amount).1 = users) ∧
    (amount = bf →
      dbLookup (transfer users from_user to_user amount).1 from_user
        = some 0) := by
  have hguard : ¬ amount ≤ 0 := not_le.2 hpos
  have hsucc : ∀ hle : amount ≤ bf,
      (transfer users from_user to_user amount).2.1 = true ∧
      dbLookup (transfer users from_user to_user amount).1 from_user
        = some (bf - amount) ∧
      dbLookup (transfer users from_user to_user amount).1 to_user
        = some (bt + amount) ∧
      totalBalance (transfer users from_user to_user amount).1
        = totalBalance users := by
    intro hle
    have hlt : ¬ bf < amount := not_lt.2 hle
    unfold transfer
    rw [hf, ht]
    simp only [hguard, if_false, hlt]
    refine ⟨trivial, ?_, ?_, ?_⟩
    · rw [dbLookup_dbUpdate_other _ to_user from_user _ hne,
        dbLookup_dbUpdate_self]
      rw [hf]; rfl
    · rw [dbLookup_dbUpdate_self]
      rw [dbLookup_dbUpdate_other _ from_user to_user _ (Ne.symm hne), ht]
      rfl
    · have hkeys := dbUpdate_keys users from_user (bf - amount)
      have hnd' : ((dbUpdate users from_user (bf - amount)).map Prod.fst).Nodup := by
        rw [hkeys]; exact hnd
      have ht' : dbLookup (dbUpdate users from_user (bf - amount)) to_user
          = some bt := by
        rw [dbLookup_dbUpdate_other _ from_user to_user _ (Ne.symm hne)]
        exact ht
      rw [totalBalance_dbUpdate _ to_user _ bt hnd' ht',
        totalBalance_dbUpdate _ from_user _ bf hnd hf]
      ring
  refine ⟨hsucc, ?_, ?_⟩
  · intro hlt
    unfold transfer
    rw [hf, ht]
    simp only [hguard, if_false, hlt, if_true]
    refine ⟨trivial, ?_, ?_⟩ <;> trivial
  · intro heq
    have h := (hsucc (le_of_eq heq)).2.1
    rw [h, ← heq]
    norm_num

/-- Witness for `transfer_correct` at wallets alice = 100, bob = 0,
amount = 25 (and the exact-balance boundary at amount = 100). -/
theorem transfer_correct_witness :
    (transfer [("alice", (100 : ℚ)), ("bob", 0)] "alice" "bob" 25).2.1 = true ∧
    dbLookup (transfer [("alice", (100 : ℚ)), ("bob", 0)] "alice" "bob" 25).1
      "alice" = some 75 ∧
    dbLookup (transfer [("alice", (100 : ℚ)), ("bob", 0)] "alice" "bob" 25).1
      "bob" = some 25 ∧
    dbLookup (transfer [("alice", (100 : ℚ)), ("bob", 0)] "alice" "bob" 100).1
      "alice" = some 0 := by
  have h := transfer_correct [("alice", (100 : ℚ)), ("bob", 0)] "alice" "bob"
    25 100 0 (by decide) (by decide) rfl rfl (by norm_num)
  have h100 := transfer_correct [("alice", (100 : ℚ)), ("bob", 0)] "alice"
    "bob" 100 100 0 (by decide) (by decide) rfl rfl (by norm_num)
  obtain ⟨hok, hfrom, hto, -⟩ := h.1 (by norm_num)
  refine ⟨hok, ?_, ?_, h100.2.2 rfl⟩
  · rw [hfrom]; norm_num
  · rw [hto]; norm_num

/-! ## Transaction status records (`server_moudle.py`)

`tx_status[tx_id]` is the in-memory status record.  `created_at` is a
`time.time()` value, modelled as a natural number of seconds.  The record
also carries asset/buyer/seller fields used only to build notification
text; they do not influence the transitions and are dropped here. -/

structure TxInfo where
  status : String
  message : String
  created_at : ℕ
  notified : Bool
  deriving Repr, DecidableEq

/-- `status in ('confirmed', 'failed', 'timeout')`. -/
def isTerminal (s : String) : Bool :=
  s = "confirmed" || s = "failed" || s = "timeout"

/-- `server_moudle._set_tx_status` acting on the (possibly absent) record of
one `tx_id`: create the record if missing, otherwise overwrite `status` and
(when a message is given) `message`; then, if the new status is terminal and
the record is not yet `notified`, mark it notified and emit the
notifications.  Returns the new record and whether the notification
side-effects ran (`emit_info` was non-None). -/
def setTxStatusInfo (info : Option TxInfo) (status : String)
    (message : Option String) (now : ℕ) : TxInfo × Bool :=
  let base : TxInfo :=
    match info with
    | none =>
      { status := status, message := message.getD "", created_at := now,
        notified := false }
    | some i =>
      { i with status := status,
               message := match message with
                          | some m => m
                          | none => i.message }
  if isTerminal status && !base.notified then
    ({ base with notified := true }, true)
  else
    (base, false)

/-- `_set_tx_status` on the whole `tx_status` map (keyed by `tx_id`). -/
def mapSetTxStatus (m : List (String × TxInfo)) (tx_id status : String)
    (message : Option String) (now : ℕ) : List (String × TxInfo) × Bool :=
  let r := setTxStatusInfo (dbLookup m tx_id) status message now
  match dbLookup m tx_id with
  | some _ => (dbUpdate m tx_id r.1, r.2)
  | none => (m ++ [(tx_id, r.1)], r.2)

/-- `server_moudle._tx_timeout_worker`, one wake-up: the `tx_id`s whose
record has `status in ('queued', 'submitted')` and
`now - created_at > tx_timeout_seconds`.  Each selected id is then driven to
`timeout` through `_set_tx_status`. -/
def txTimeoutSelect (m : List (String × TxInfo)) (now timeoutSeconds : ℕ) :
    List String :=
  (m.filter (fun p =>
    (p.2.status = "queued" || p.2.status = "submitted") &&
      decide (timeoutSeconds < now - p.2.created_at))).map Prod.fst

/-- `notified` of a possibly-absent record (`info.get('notified')`,
false when the record or the key is missing). -/
def notifiedOf (info : Option TxInfo) : Bool :=
  (info.map TxInfo.notified).getD false

/-- One call to `_set_tx_status` for a fixed `tx_id`, as recorded by any of
its callers (worker, confirmation listener, timeout worker). -/
structure StatusCall where
  status : String
  message : Option String
  now : ℕ

/-- A whole run of `_set_tx_status` calls against one tx's record, counting
how many of them fired the terminal side-effects
(`_emit_tx_notifications`: buyer/seller notifications and the
marketplace-removal broadcast). -/
def runStatusCalls (info : Option TxInfo) : List StatusCall → Option TxInfo × ℕ
  | [] => (info, 0)
  | c :: rest =>
    let r := setTxStatusInfo info c.status c.message c.now
    let rest' := runStatusCalls (some r.1) rest
    (rest'.1, (if r.2 then 1 else 0) + rest'.2)

theorem setTxStatusInfo_status (info : Option TxInfo) (status : String)
    (message : Option String) (now : ℕ) :
    (setTxStatusInfo info status message now).1.status = status := by
  unfold setTxStatusInfo
  cases info <;> dsimp only <;> split <;> rfl

theorem setTxStatusInfo_emit (info : Option TxInfo) (status : String)
    (message : Option String) (now : ℕ) :
    (setTxStatusInfo info status message now).2
      = (isTerminal status && !(notifiedOf info)) := by
  cases info <;>
    simp only [setTxStatusInfo, notifiedOf, Option.map_some', Option.getD_some,
      Option.map_none', Option.getD_none] <;>
    split <;> simp_all

theorem setTxStatusInfo_notified (info : Option TxInfo) (status : String)
    (message : Option String) (now : ℕ) :
    (setTxStatusInfo info status message now).1.notified
      = (notifiedOf info || (isTerminal status && !(notifiedOf info))) := by
  cases info <;>
    simp only [setTxStatusInfo, notifiedOf, Option.map_some', Option.getD_some,
      Option.map_none', Option.getD_none] <;>
    split <;> simp_all

theorem runStatusCalls_le (calls : List StatusCall) (info : Option TxInfo) :
    (runStatusCalls info calls).2 ≤ (if notifiedOf info then 0 else 1) := by
  induction calls generalizing info with
  | nil =>
    simp only [runStatusCalls]
    split <;> omega
  | cons c rest ih =>
    rw [runStatusCalls]
    dsimp only
    have hemit := setTxStatusInfo_emit info c.status c.message c.now
    have hnotif := setTxStatusInfo_notified info c.status c.message c.now
    have hx := ih (some (setTxStatusInfo info c.status c.message c.now).1)
    simp only [notifiedOf, Option.map_some', Option.getD_some] at hx
    simp only [hnotif] at hx
    simp only [hemit]
    cases ht : isTerminal c.status <;> cases hn : notifiedOf info <;>
      simp only [ht, hn] at hx ⊢ <;> simp at hx ⊢ <;> omega

/-- Claim C4 counterexample: with tx "T1" already in the terminal state
`confirmed`, a later `_set_tx_status(tx_id, "failed", …)` call overwrites
the stored status to `failed` — the operation is not a no-op on a terminal
record, refuting stickiness as claimed. -/
theorem set_tx_status_terminal_not_sticky :
    (setTxStatusInfo
      (some { status := "confirmed", message := "Transaction confirmed",
              created_at := 0, notified := true })
      "failed" (some "late failure") 5).1.status = "failed"
    ∧ ("failed" : String) ≠ "confirmed" := by
  exact ⟨by decide, by decide⟩

/-- Claim C4 (amended): `_set_tx_status` overwrites the stored status with
its argument on every call, whatever the previous state (terminal states
are not sticky in the status field); separately, the timeout worker only
ever selects records whose current status is `queued` or `submitted`, so
the `timeout` transition itself is never applied over a terminal state. -/
theorem set_tx_status_overwrite (info : Option TxInfo) (status : String)
    (message : Option String) (now : ℕ) (m : List (String × TxInfo))
    (nowT timeoutSeconds : ℕ) :
    (setTxStatusInfo info status message now).1.status = status ∧
    (∀ tid ∈ txTimeoutSelect m nowT timeoutSeconds,
      ∃ p ∈ m, p.1 = tid ∧
        (p.2.status = "queued" ∨ p.2.status = "submitted")) := by
  refine ⟨setTxStatusInfo_status _ _ _ _, ?_⟩
  intro tid hmem
  simp only [txTimeoutSelect, List.mem_map, List.mem_filter] at hmem
  obtain ⟨p, ⟨hpm, hcond⟩, hfst⟩ := hmem
  refine ⟨p, hpm, hfst, ?_⟩
  simp only [Bool.and_eq_true, Bool.or_eq_true, decide_eq_true_eq] at hcond
  exact hcond.1

/-- Claim C9: starting from any record not yet notified (in particular the
record created at BUY time, which carries no `notified` key), an arbitrary
sequence of `_set_tx_status` calls fires the terminal side-effects
(`_emit_tx_notifications`) at most once, however many times the record is
driven into a terminal state. -/
theorem notifications_at_most_once (info : Option TxInfo)
    (calls : List StatusCall) (h : notifiedOf info = false) :
    (runStatusCalls info calls).2 ≤ 1 := by
  have hle := runStatusCalls_le calls info
  simp only [h] at hle
  simpa using hle

/-- Witness for `notifications_at_most_once`: the BUY-time record driven to
`confirmed`, then `failed`, then `timeout`. -/
theorem notifications_at_most_once_witness :
    notifiedOf (some { status := "queued", message := "Queued for PoW",
                       created_at := 0, notified := false }) = false ∧
    (runStatusCalls
      (some { status := "queued", message := "Queued for PoW",
              created_at := 0, notified := false })
      [⟨"confirmed", some "Transaction confirmed", 10⟩,
       ⟨"failed", some "transfer failed", 20⟩,
       ⟨"timeout", some "PoW Timeout after 10 mins", 700⟩]).2 ≤ 1 :=
  ⟨rfl, notifications_at_most_once _ _ rfl⟩

/-! ## Gateway submission and the submission worker
(`gateway_server.handle`, `server_moudle._tx_worker`) -/

/-- A gateway JSON reply as read by the worker: `status`, and the
`nodes_reached` / `message` keys when present. -/
structure GatewayReply where
  status : String
  nodes_reached : Option ℕ
  message : Option String
  deriving Repr, DecidableEq

/-- `server_moudle._tx_worker`, handling of one dequeued purchase.  The
argument is the result of `_submit_purchase_to_gateway`: an exception
(`Except.error e`), no parseable reply (`ok none`), or a reply.  The result
is the `(status, message)` pair passed to `_set_tx_status`. -/
def txWorkerOutcome (resp : Except String (Option GatewayReply)) :
    String × Option String :=
  match resp with
  | Except.error e => ("failed", some ("Gateway error: " ++ e))
  | Except.ok none => ("failed", some "Gateway did not respond")
  | Except.ok (some r) =>
    if r.status = "submitted" then
      ("submitted", some (r.message.getD "Submitted to gateway"))
    else
      ("failed", r.message)

/-- The body of a `submit_purchase` message (absent JSON keys are `none`). -/
structure PurchaseBody where
  buyer : Option String
  seller : Option String
  asset_id : Option String
  asset_name : Option String
  price : Option String
  timestamp : Option String
  tx_id : Option String
  deriving Repr, DecidableEq

/-- `k not in body or body.get(k) in (None, '')` for one field. -/
def missingField (v : Option String) : Bool :=
  match v with
  | none => true
  | some s => s = ""

/-- The gateway's `missing` list over the required fields, in source
order. -/
def missingList (b : PurchaseBody) : List String :=
  (if missingField b.buyer then ["buyer"] else []) ++
  (if missingField b.seller then ["seller"] else []) ++
  (if missingField b.asset_id then ["asset_id"] else []) ++
  (if missingField b.asset_name then ["asset_name"] else []) ++
  (if missingField b.price then ["price"] else []) ++
  (if missingField b.timestamp then ["timestamp"] else []) ++
  (if missingField b.tx_id then ["tx_id"] else [])

/-- The gateway's `submit_purchase` branch of `handle`: reject missing
fields, reject an unparseable price (`parsePrice` abstracts Python
`float`), otherwise broadcast (reaching `count` nodes) and reply
`submitted` iff `count` is non-zero, carrying `nodes_reached = count`. -/
def gatewaySubmitPurchase (parsePrice : String → Option ℚ)
    (b : PurchaseBody) (count : ℕ) : GatewayReply :=
  if !(missingList b).isEmpty then
    { status := "failed", nodes_reached := none,
      message := some ("Missing fields: " ++
        String.intercalate ", " (missingList b)) }
  else
    match parsePrice (b.price.getD "") with
    | none =>
      { status := "failed", nodes_reached := none,
        message := some "Invalid price" }
    | some _ =>
      { status := if count ≠ 0 then "submitted" else "failed",
        nodes_reached := some count,
        message := some (if count ≠ 0 then
          "Transaction submitted. Broadcast to " ++ toString count ++
            " node(s). Pending confirmation."
          else "Transaction failed: no nodes reached. Start nodes first.") }

/-- Claim C8: the worker marks a purchase `submitted` iff the gateway reply
has status `submitted`, which the gateway's `submit_purchase` handler
returns iff it reached ≥ 1 node; any other reply yields `failed` with the
gateway's message, a missing reply yields `failed`, and an exception yields
`failed` with the exception string — the worker never sets `timeout`. -/
theorem tx_worker_submitted_iff (parsePrice : String → Option ℚ)
    (b : PurchaseBody) (count : ℕ)
    (resp : Except String (Option GatewayReply)) (e : String) :
    ((gatewaySubmitPurchase parsePrice b count).status = "submitted"
      ↔ ∃ n, (gatewaySubmitPurchase parsePrice b count).nodes_reached = some n
          ∧ 1 ≤ n) ∧
    ((txWorkerOutcome resp).1 = "submitted"
      ↔ ∃ r, resp = Except.ok (some r) ∧ r.status = "submitted") ∧
    ((txWorkerOutcome resp).1 = "submitted" ∨
      (txWorkerOutcome resp).1 = "failed") ∧
    (∀ r, resp = Except.ok (some r) → r.status ≠ "submitted" →
      txWorkerOutcome resp = ("failed", r.message)) ∧
    (txWorkerOutcome (Except.error e)
      = ("failed", some ("Gateway error: " ++ e))) := by
  refine ⟨?_, ?_, ?_, ?_, rfl⟩
  · unfold gatewaySubmitPurchase
    split
    · constructor
      · intro h
        simp at h
      · rintro ⟨n, hn, -⟩
        cases hn
    · split
      · constructor
        · intro h
          simp at h
        · rintro ⟨n, hn, -⟩
          cases hn
      · dsimp only
        by_cases hc : count ≠ 0
        · simp [hc]
          omega
        · simp [hc]
          omega
  · cases resp with
    | error e' => simp [txWorkerOutcome]
    | ok o =>
      cases o with
      | none => simp [txWorkerOutcome]
      | some r =>
        unfold txWorkerOutcome
        by_cases hs : r.status = "submitted"
        · simp [hs]
        · simp [hs]
  · cases resp with
    | error e' => right; rfl
    | ok o =>
      cases o with
      | none => right; rfl
      | some r =>
        unfold txWorkerOutcome
        by_cases hs : r.status = "submitted"
        · left; simp [hs]
        · right; simp [hs]
  · rintro r rfl hs
    unfold txWorkerOutcome
    simp [hs]

/-! ## PoW node (`pow_node.py`, `db_init.py`)

The per-node ledger is the pair of tables created by `init_node_database`:
`blocks("index" INTEGER PRIMARY KEY, timestamp, prev_hash, current_hash,
nonce, miner_id, signature)` and `transactions(id, block_hash, sender,
data, signature, start_timestamp, end_timestamp)`.  Note the schema
declares no UNIQUE constraint on `current_hash` — only the non-unique
index `idx_blocks_current_hash`; the sole uniqueness on `blocks` is the
`"index"` primary key. -/

/-- A mempool entry / broadcast transaction.  `data` holds the transaction
payload in its serialized form (the handlers store `json.dumps(tx['data'])`
and otherwise treat it opaquely). -/
structure MempoolTx where
  sender : String
  data : String
  signature : String
  start_timestamp : Option String
  deriving Repr, DecidableEq

/-- One row of the node ledger's `blocks` table. -/
structure BlockRow where
  index : ℤ
  timestamp : String
  prev_hash : String
  current_hash : String
  nonce : ℤ
  miner_id : String
  signature : String
  deriving Repr, DecidableEq

/-- One row of the node ledger's `transactions` table (the AUTOINCREMENT id
is implicit in the list position). -/
structure TxRow where
  block_hash : String
  sender : String
  data : String
  signature : String
  start_timestamp : String
  end_timestamp : String
  deriving Repr, DecidableEq

/-- The mutable state of one `PoWNode` together with its ledger. -/
structure NodeState where
  node_id : String
  difficulty : ℕ
  last_block_index : ℤ
  last_block_hash : String
  mempool : List MempoolTx
  blocks : List BlockRow
  txs : List TxRow
  deriving Repr, DecidableEq

/-- An inbound `new_block` payload (`message['data']`); JSON keys that may
be absent are `Option`s, read with `.get(...)`. -/
structure BlockPayload where
  index : Option ℤ
  timestamp : Option String
  prev_hash : Option String
  current_hash : Option String
  nonce : Option ℤ
  miner_id : Option String
  signature : Option String
  public_key_pem : Option String
  transactions : List MempoolTx
  deriving Repr, DecidableEq

/-- The single SQLite transaction that inserts a block row plus its
transaction rows and commits (`_handle_new_block` / `_on_block_mined`).
It fails — and then writes nothing, as the uncommitted connection is
discarded — iff a `blocks` row with the same `"index"` already exists
(the PRIMARY KEY); no other uniqueness is enforced by the schema. -/
def insertBlockTxs (blocks : List BlockRow) (txs : List TxRow)
    (b : BlockRow) (newTxs : List TxRow) :
    Option (List BlockRow × List TxRow) :=
  if blocks.any (fun r => r.index = b.index) then none
  else some (blocks ++ [b], txs ++ newTxs)

/-- The `transactions` row built for one tx sealed by a block:
`end_timestamp` is the block timestamp and a falsy `start_timestamp`
falls back to it (both `_handle_new_block` and `_on_block_mined`). -/
def txRowOf (block_hash end_ts : String) (tx : MempoolTx) : TxRow :=
  { block_hash := block_hash, sender := tx.sender, data := tx.data,
    signature := tx.signature,
    start_timestamp := match tx.start_timestamp with
                       | some s => if s = "" then end_ts else s
                       | none => end_ts,
    end_timestamp := end_ts }

/-- `pow_node._handle_new_block` with RSA verification abstracted as
`verify pem data sig` (`NodeKeyManager.verify_signature`, false on any
exception).  Checks, in source order: presence of the required fields and
a non-empty `public_key_pem`; the PoW prefix (I2); the signature (I3); the
chain link `index == last_index + 1` and `prev_hash == last_hash` (I1);
then inserts block and transactions in one DB transaction (a missing
`timestamp` violates NOT NULL and aborts it) and advances the tip.
Returns the state after the handler and whether the block was accepted
(on acceptance the source also calls `_stop_mining("new_block")`).
The handler performs no hash recomputation and never touches the mempool.
The inserted row's `prev_hash` is the payload's value, which the I1 guard
has just equated with `st.last_block_hash`. -/
def handleNewBlock (verify : String → String → String → Bool)
    (st : NodeState) (p : BlockPayload) : NodeState × Bool :=
  match p.index, p.current_hash, p.nonce, p.miner_id, p.signature with
  | some bi, some ch, some nonce, some mid, some sig =>
    match p.public_key_pem with
    | none => (st, false)
    | some pem =>
      if pem = "" then (st, false)
      else if !(strStartsWith ch (zeros st.difficulty)) then (st, false)
      else if !(verify pem ch sig) then (st, false)
      else if bi ≠ st.last_block_index + 1 then (st, false)
      else if p.prev_hash ≠ some st.last_block_hash then (st, false)
      else
        match p.timestamp with
        | none => (st, false)
        | some ts =>
          let row : BlockRow :=
            { index := bi, timestamp := ts,
              prev_hash := st.last_block_hash, current_hash := ch,
              nonce := nonce, miner_id := mid, signature := sig }
          match insertBlockTxs st.blocks st.txs row
              (p.transactions.map (txRowOf ch ts)) with
          | none => (st, false)
          | some (blocks', txs') =>
            ({ st with blocks := blocks', txs := txs',
                       last_block_index := bi, last_block_hash := ch }, true)
  | _, _, _, _, _ => (st, false)

/-- The miner's canonical data string (`_start_mining_if_needed`):
`json.dumps({'prev_hash': …, 'timestamp': …, 'index': …, 'tx': …},
sort_keys=True)` — keys in sorted order `index, prev_hash, timestamp, tx`
with the tx's serialized form spliced in. -/
def canonicalData (prev_hash timestamp : String) (index : ℤ)
    (txSerialized : String) : String :=
  "\x7b\"index\": " ++ toString index ++ ", \"prev_hash\": \"" ++
    prev_hash ++ "\", \"timestamp\": \"" ++ timestamp ++ "\", \"tx\": " ++
    txSerialized ++ "\x7d"

/-- The hash recomputation demanded by invariant I4:
`SHA256(canonical_serialization || str(nonce))`, with SHA-256 abstracted
as `H`. -/
def recomputedHash (H : String → String) (prev_hash timestamp : String)
    (index : ℤ) (txSerialized : String) (nonce : ℤ) : String :=
  H (canonicalData prev_hash timestamp index txSerialized ++ toString nonce)

/-- `pow_node.hashing_process`: iterate `nonce = start, start+1, …`,
polling the stop event before each attempt (`stopAt n` models
`stop_event.is_set()` at the iteration whose nonce is `n`), hashing
`f"{data}{nonce}"` through `H` (abstracting
`hashlib.sha256(...).hexdigest()`) and returning the first attempt whose
hex starts with `'0' * difficulty`.  `fuel` bounds how many iterations are
modelled — the Python loop itself is unbounded. -/
def hashingProcess (H : String → String) (data : String) (difficulty : ℕ)
    (stopAt : ℕ → Bool) : ℕ → ℕ → Option (String × ℕ)
  | 0, _ => none
  | fuel + 1, nonce =>
    if stopAt nonce then none
    else
      let hash_attempt := H (data ++ toString nonce)
      if strStartsWith hash_attempt (zeros difficulty) then
        some (hash_attempt, nonce)
      else
        hashingProcess H data difficulty stopAt fuel (nonce + 1)

/-- The `block_confirmation` datagram a winning node sends to the gateway
(`_send_block_confirmation`). -/
structure NodeConfirmation where
  block_index : ℤ
  block_hash : String
  miner_id : String
  node_id : String
  timestamp : String
  transactions : List MempoolTx
  deriving Repr, DecidableEq

/-- `pow_node._on_block_mined`: pop the mempool head first, then insert
block + transaction in one DB transaction; on any DB failure (`dbOk =
false` models an exception, and a duplicate PRIMARY KEY fails
deterministically) log and return — the popped entry is not restored.  On
success advance the tip and return the `new_block` broadcast payload and
the gateway confirmation.  `ts`, `sig`, `pem` are the timestamp taken in
the handler, `key_manager.sign_data(block_hash)` and
`key_manager.get_public_key_pem()`. -/
def onBlockMined (st : NodeState) (block_hash : String) (nonce : ℤ)
    (ts sig pem : String) (dbOk : Bool) :
    NodeState × Option BlockPayload × Option NodeConfirmation :=
  match st.mempool with
  | [] => (st, none, none)
  | tx :: rest =>
    let block_index := st.last_block_index + 1
    let prev_hash := st.last_block_hash
    let row : BlockRow :=
      { index := block_index, timestamp := ts, prev_hash := prev_hash,
        current_hash := block_hash, nonce := nonce,
        miner_id := st.node_id, signature := sig }
    if dbOk then
      match insertBlockTxs st.blocks st.txs row [txRowOf block_hash ts tx] with
      | none => ({ st with mempool := rest }, none, none)
      | some (blocks', txs') =>
        ({ st with mempool := rest, blocks := blocks', txs := txs',
                   last_block_index := block_index,
                   last_block_hash := block_hash },
         some { index := some block_index, timestamp := some ts,
                prev_hash := some prev_hash,
                current_hash := some block_hash, nonce := some nonce,
                miner_id := some st.node_id, signature := some sig,
                public_key_pem := some pem, transactions := [tx] },
         some { block_index := block_index, block_hash := block_hash,
                miner_id := st.node_id, node_id := st.node_id,
                timestamp := ts, transactions := [tx] })
    else
      ({ st with mempool := rest }, none, none)

theorem hashingProcess_sound (H : String → String) (data : String)
    (difficulty : ℕ) (stopAt : ℕ → Bool) :
    ∀ fuel s h n, hashingProcess H data difficulty stopAt fuel s = some (h, n) →
      s ≤ n ∧ h = H (data ++ toString n) ∧
      strStartsWith h (zeros difficulty) = true ∧
      stopAt n = false ∧
      ∀ m, s ≤ m → m < n → stopAt m = false ∧
        strStartsWith (H (data ++ toString m)) (zeros difficulty) = false := by
  intro fuel
  induction fuel with
  | zero => intro s h n hres; simp [hashingProcess] at hres
  | succ fuel ih =>
    intro s h n hres
    rw [hashingProcess] at hres
    by_cases hstop : stopAt s = true
    · simp [hstop] at hres
    · have hstop' : stopAt s = false := Bool.of_not_eq_true hstop
      simp only [hstop', if_false, Bool.false_eq_true] at hres
      by_cases hhit : strStartsWith (H (data ++ toString s)) (zeros difficulty) = true
      · simp only [hhit, if_true] at hres
        injection hres with hres2
        injection hres2 with hh hn
        subst hn
        subst hh
        exact ⟨le_refl _, rfl, hhit, hstop',
          fun m hm1 hm2 => absurd hm2 (by omega)⟩
      · have hhit' : strStartsWith (H (data ++ toString s)) (zeros difficulty) = false :=
          Bool.of_not_eq_true hhit
        simp only [hhit', Bool.false_eq_true, if_false] at hres
        obtain ⟨hs, hh, hsw, hst, hall⟩ := ih (s + 1) h n hres
        refine ⟨by omega, hh, hsw, hst, ?_⟩
        intro m hm1 hm2
        rcases Nat.eq_or_lt_of_le hm1 with heq | hlt
        · subst heq
          exact ⟨hstop', hhit'⟩
        · exact hall m hlt hm2

theorem hashingProcess_complete (H : String → String) (data : String)
    (difficulty : ℕ) (stopAt : ℕ → Bool) :
    ∀ fuel s n, s ≤ n → n - s < fuel →
      (∀ m, s ≤ m → m ≤ n → stopAt m = false) →
      (∀ m, s ≤ m → m < n →
        strStartsWith (H (data ++ toString m)) (zeros difficulty) = false) →
      strStartsWith (H (data ++ toString n)) (zeros difficulty) = true →
      hashingProcess H data difficulty stopAt fuel s
        = some (H (data ++ toString n), n) := by
  intro fuel
  induction fuel with
  | zero => intro s n hsn hfuel; omega
  | succ fuel ih =>
    intro s n hsn hfuel hstop hmiss hhit
    rw [hashingProcess]
    rw [hstop s (le_refl _) hsn]
    simp only [Bool.false_eq_true, if_false]
    rcases Nat.eq_or_lt_of_le hsn with heq | hlt
    · subst heq
      simp only [hhit, if_true]
    · rw [hmiss s (le_refl _) hlt]
      simp only [Bool.false_eq_true, if_false]
      exact ih (s + 1) n (by omega) (by omega)
        (fun m hm1 hm2 => hstop m (by omega) hm2)
        (fun m hm1 hm2 => hmiss m (by omega) hm2) hhit

theorem hashingProcess_stopped (H : String → String) (data : String)
    (difficulty : ℕ) (stopAt : ℕ → Bool) :
    ∀ fuel s k, s ≤ k → stopAt k = true →
      (∀ m, s ≤ m → m < k → stopAt m = false ∧
        strStartsWith (H (data ++ toString m)) (zeros difficulty) = false) →
      hashingProcess H data difficulty stopAt fuel s = none := by
  intro fuel
  induction fuel with
  | zero => intro s k hsk hk hpre; rfl
  | succ fuel ih =>
    intro s k hsk hk hpre
    rw [hashingProcess]
    rcases Nat.eq_or_lt_of_le hsk with heq | hlt
    · subst heq
      simp only [hk, if_true]
    · obtain ⟨hst, hmiss⟩ := hpre s (le_refl _) hlt
      rw [hst]
      simp only [Bool.false_eq_true, if_false, hmiss]
      exact ih (s + 1) k (by omega) hk (fun m hm1 hm2 => hpre m (by omega) hm2)

theorem strStartsWith_zeros_zero (s : String) :
    strStartsWith s (zeros 0) = true := by
  simp [strStartsWith, zeros, List.isPrefixOf]

/-- The number of leading '0' characters of a hex string. -/
def leadingZeros (s : String) : ℕ :=
  (s.data.takeWhile (fun c => c = '0')).length

theorem replicate_isPrefixOf_iff (n : ℕ) (l : List Char) :
    (List.replicate n '0').isPrefixOf l = true
      ↔ n ≤ (l.takeWhile (fun c => c = '0')).length := by
  induction n generalizing l with
  | zero => simp [List.isPrefixOf]
  | succ n ih =>
    cases l with
    | nil => simp [List.replicate, List.isPrefixOf, List.takeWhile]
    | cons a as =>
      rw [List.replicate, List.takeWhile]
      by_cases ha : a = '0'
      · subst ha
        simp only [List.isPrefixOf, List.isPrefixOf_cons₂]
        simp [List.isPrefixOf, ih, Nat.succ_le_succ_iff]
      · simp [List.isPrefixOf, Ne.symm ha, ha]

/-- The code's `current_hash.startswith('0' * difficulty)` is exactly the
spec's "has ≥ `difficulty` leading '0' characters". -/
theorem strStartsWith_zeros_iff (s : String) (n : ℕ) :
    strStartsWith s (zeros n) = true ↔ n ≤ leadingZeros s := by
  unfold strStartsWith zeros leadingZeros
  exact replicate_isPrefixOf_iff n s.data

/-- Claim C6: the mining loop iterates `nonce = 0, 1, 2, …` and returns the
first `(hash, nonce)` with `hash = SHA256(data || ascii(nonce))` starting
with ≥ `difficulty` '0' chars (every earlier nonce neither stopped the loop
nor qualified); if the stop signal is set before a qualifying nonce is
reached it returns without producing; and with `difficulty = 0` it returns
nonce 0 (SHA-256 abstracted as the parameter `H`; `fuel` bounds the
modelled iterations of the unbounded Python loop). -/
theorem hashing_process_contract (H : String → String) (data : String)
    (difficulty : ℕ) (stopAt : ℕ → Bool) (fuel : ℕ) :
    (∀ h n, hashingProcess H data difficulty stopAt fuel 0 = some (h, n) →
      h = H (data ++ toString n) ∧
      strStartsWith h (zeros difficulty) = true ∧
      stopAt n = false ∧
      ∀ m, m < n → stopAt m = false ∧
        strStartsWith (H (data ++ toString m)) (zeros difficulty) = false) ∧
    (∀ n, n < fuel → (∀ m, m ≤ n → stopAt m = false) →
      (∀ m, m < n →
        strStartsWith (H (data ++ toString m)) (zeros difficulty) = false) →
      strStartsWith (H (data ++ toString n)) (zeros difficulty) = true →
      hashingProcess H data difficulty stopAt fuel 0
        = some (H (data ++ toString n), n)) ∧
    (∀ k, stopAt k = true →
      (∀ m, m < k → stopAt m = false ∧
        strStartsWith (H (data ++ toString m)) (zeros difficulty) = false) →
      hashingProcess H data difficulty stopAt fuel 0 = none) ∧
    (difficulty = 0 → stopAt 0 = false → 0 < fuel →
      hashingProcess H data difficulty stopAt fuel 0
        = some (H (data ++ "0"), 0)) ∧
    (∀ s : String, strStartsWith s (zeros difficulty) = true
      ↔ difficulty ≤ leadingZeros s) := by
  refine ⟨?_, ?_, ?_, ?_, fun s => strStartsWith_zeros_iff s difficulty⟩
  · intro h n hres
    obtain ⟨-, hh, hsw, hst, hall⟩ :=
      hashingProcess_sound H data difficulty stopAt fuel 0 h n hres
    exact ⟨hh, hsw, hst, fun m hm => hall m (Nat.zero_le m) hm⟩
  · intro n hn hstop hmiss hhit
    exact hashingProcess_complete H data difficulty stopAt fuel 0 n
      (Nat.zero_le n) (by omega) (fun m _ => hstop m) (fun m _ => hmiss m)
      hhit
  · intro k hk hpre
    exact hashingProcess_stopped H data difficulty stopAt fuel 0 k
      (Nat.zero_le k) hk (fun m _ => hpre m)
  · intro hd hs hf
    subst hd
    cases fuel with
    | zero => omega
    | succ fuel =>
      rw [hashingProcess, hs]
      simp only [Bool.false_eq_true, if_false, strStartsWith_zeros_zero,
        if_true]
      rfl

/-! Concrete fixtures for the closed (counterexample / witness) theorems. -/

/-- A concrete mempool entry. -/
def txA : MempoolTx :=
  { sender := "alice", data := "\x7b\"from\": \"alice\", \"to\": \"bob\"\x7d",
    signature := "SIG_alice_T1", start_timestamp := some "2026-01-01T00:00:00" }

/-- A freshly started node at difficulty 0 (genesis tip: index −1,
hash `'0' * 64`) holding one mempool entry. -/
def nodeA : NodeState :=
  { node_id := "n1", difficulty := 0, last_block_index := -1,
    last_block_hash := zeros 64, mempool := [txA], blocks := [], txs := [] }

/-- A peer `new_block` payload that passes every check the handler makes. -/
def payloadA : BlockPayload :=
  { index := some 0, timestamp := some "2026-01-01T00:00:05",
    prev_hash := some (zeros 64), current_hash := some "deadbeef",
    nonce := some 0, miner_id := some "m2", signature := some "s2",
    public_key_pem := some "PEM2", transactions := [txA] }

/-- Claim C5 (amended): an insert into the node ledger fails atomically —
nothing at all is written — exactly when a block row with the same
`"index"` already exists (the PRIMARY KEY); otherwise the block row and
all its transaction rows are inserted.  No uniqueness of `current_hash`
is enforced. -/
theorem insert_block_primary_key (blocks : List BlockRow) (txs : List TxRow)
    (b : BlockRow) (newTxs : List TxRow) :
    ((∃ r ∈ blocks, r.index = b.index) →
      insertBlockTxs blocks txs b newTxs = none) ∧
    ((∀ r ∈ blocks, r.index ≠ b.index) →
      insertBlockTxs blocks txs b newTxs
        = some (blocks ++ [b], txs ++ newTxs)) := by
  constructor
  · rintro ⟨r, hr, hidx⟩
    unfold insertBlockTxs
    have : blocks.any (fun r => r.index = b.index) = true := by
      rw [List.any_eq_true]
      exact ⟨r, hr, by simpa using hidx⟩
    simp [this]
  · intro hall
    unfold insertBlockTxs
    have : blocks.any (fun r => r.index = b.index) = false := by
      rw [List.any_eq_false]
      intro r hr
      simpa using hall r hr
    simp [this]

/-- Claim C5 counterexample: the node ledger accepts a second block whose
`current_hash` equals an existing one (at a fresh index): the insert
succeeds and both rows land in `blocks` — no UNIQUE violation occurs,
because the schema has no UNIQUE constraint on `current_hash`. -/
theorem insert_duplicate_hash_accepted_cex :
    (insertBlockTxs
      [{ index := 0, timestamp := "T0", prev_hash := zeros 64,
         current_hash := "deadbeef", nonce := 0, miner_id := "m",
         signature := "s" }] []
      { index := 1, timestamp := "T1", prev_hash := "deadbeef",
        current_hash := "deadbeef", nonce := 7, miner_id := "m",
        signature := "s" }
      [txRowOf "deadbeef" "T1" txA]).isSome = true ∧
    ((insertBlockTxs
      [{ index := 0, timestamp := "T0", prev_hash := zeros 64,
         current_hash := "deadbeef", nonce := 0, miner_id := "m",
         signature := "s" }] []
      { index := 1, timestamp := "T1", prev_hash := "deadbeef",
        current_hash := "deadbeef", nonce := 7, miner_id := "m",
        signature := "s" }
      [txRowOf "deadbeef" "T1" txA]).getD ([], [])).1.map
        BlockRow.current_hash = ["deadbeef", "deadbeef"] := by
  refine ⟨by decide, by decide⟩

/-- Witness for `insert_block_primary_key`: a duplicate index 0 is refused
outright, and a fresh index 1 is inserted together with its transaction
row. -/
theorem insert_block_primary_key_witness :
    insertBlockTxs
      [{ index := 0, timestamp := "T0", prev_hash := zeros 64,
         current_hash := "aa", nonce := 0, miner_id := "m",
         signature := "s" }] []
      { index := 0, timestamp := "T1", prev_hash := "aa",
        current_hash := "bb", nonce := 1, miner_id := "m",
        signature := "s" } [] = none := by
  exact (insert_block_primary_key _ _ _ _).1
    ⟨{ index := 0, timestamp := "T0", prev_hash := zeros 64,
       current_hash := "aa", nonce := 0, miner_id := "m",
       signature := "s" }, by decide, by decide⟩

/-- Claim C7 (amended): on accepting a valid peer block
`_handle_new_block` appends the block row and its transaction rows to the
ledger, advances `(last_block_index, last_block_hash)` to the new tip and
stops the local miner (the `true` component) — but it leaves the mempool
untouched: no head is drained. -/
theorem handle_new_block_accept_effects
    (verify : String → String → String → Bool)
    (st : NodeState) (p : BlockPayload) (bi : ℤ) (ch : String) (nonce : ℤ)
    (mid sig pem ts : String)
    (hindex : p.index = some bi)
    (hch : p.current_hash = some ch)
    (hnonce : p.nonce = some nonce)
    (hmid : p.miner_id = some mid)
    (hsig : p.signature = some sig)
    (hkey : p.public_key_pem = some pem)
    (hpem : pem ≠ "")
    (hpow : strStartsWith ch (zeros st.difficulty) = true)
    (hver : verify pem ch sig = true)
    (hbi : bi = st.last_block_index + 1)
    (hprev : p.prev_hash = some st.last_block_hash)
    (hts : p.timestamp = some ts)
    (hfresh : st.blocks.any (fun r => r.index = bi) = false) :
    handleNewBlock verify st p =
      ({ st with
           blocks := st.blocks ++
             [{ index := bi, timestamp := ts,
                prev_hash := st.last_block_hash, current_hash := ch,
                nonce := nonce, miner_id := mid, signature := sig }],
           txs := st.txs ++ p.transactions.map (txRowOf ch ts),
           last_block_index := bi, last_block_hash := ch }, true) ∧
    (handleNewBlock verify st p).1.mempool = st.mempool := by
  subst hbi
  have hmain : handleNewBlock verify st p =
      ({ st with
           blocks := st.blocks ++
             [{ index := st.last_block_index + 1, timestamp := ts,
                prev_hash := st.last_block_hash, current_hash := ch,
                nonce := nonce, miner_id := mid, signature := sig }],
           txs := st.txs ++ p.transactions.map (txRowOf ch ts),
           last_block_index := st.last_block_index + 1,
           last_block_hash := ch }, true) := by
    have hins : insertBlockTxs st.blocks st.txs
        { index := st.last_block_index + 1, timestamp := ts,
          prev_hash := st.last_block_hash, current_hash := ch,
          nonce := nonce, miner_id := mid, signature := sig }
        (p.transactions.map (txRowOf ch ts))
        = some (st.blocks ++
            [{ index := st.last_block_index + 1, timestamp := ts,
               prev_hash := st.last_block_hash, current_hash := ch,
               nonce := nonce, miner_id := mid, signature := sig }],
            st.txs ++ p.transactions.map (txRowOf ch ts)) := by
      unfold insertBlockTxs
      simp [hfresh]
    unfold handleNewBlock
    rw [hindex, hch, hnonce, hmid, hsig, hkey, hts, hprev]
    simp [hpem, hpow, hver, hins]
  exact ⟨hmain, by rw [hmain]⟩

/-- Claim C7 counterexample: a fully valid peer block is accepted
(`true`: the miner is stopped, the ledger grows) yet the mempool still
holds its head afterwards — the head is not drained. -/
theorem handle_new_block_keeps_mempool_cex :
    (handleNewBlock (fun _ _ _ => true) nodeA payloadA).2 = true ∧
    (handleNewBlock (fun _ _ _ => true) nodeA payloadA).1.mempool = [txA] ∧
    ([txA] : List MempoolTx) ≠ [] := by
  refine ⟨by decide, by decide, by decide⟩

/-- Witness for `handle_new_block_accept_effects` at the concrete node
`nodeA` and payload `payloadA` with an accepting signature oracle. -/
theorem handle_new_block_accept_effects_witness :
    handleNewBlock (fun _ _ _ => true) nodeA payloadA =
      ({ nodeA with
           blocks := [{ index := 0, timestamp := "2026-01-01T00:00:05",
                        prev_hash := zeros 64, current_hash := "deadbeef",
                        nonce := 0, miner_id := "m2", signature := "s2" }],
           txs := [txRowOf "deadbeef" "2026-01-01T00:00:05" txA],
           last_block_index := 0, last_block_hash := "deadbeef" }, true) := by
  have h := (handle_new_block_accept_effects (fun _ _ _ => true) nodeA
    payloadA 0 "deadbeef" 0 "m2" "s2" "PEM2" "2026-01-01T00:00:05"
    rfl rfl rfl rfl rfl rfl (by decide) (by decide) rfl (by decide) rfl rfl
    (by decide)).1
  rw [h]
  rfl

/-- Claim C10: after a successful local mine the mempool head is popped
before the ledger write; if the insert then fails (an exception, `dbOk =
false`, or a PRIMARY KEY violation) the node returns with the tip, the
ledger and the transactions table unchanged, sends no broadcast and no
confirmation — and the popped entry is simply gone from the mempool. -/
theorem mined_block_db_failure (st : NodeState) (tx : MempoolTx)
    (rest : List MempoolTx) (block_hash : String) (nonce : ℤ)
    (ts sig pem : String) (dbOk : Bool)
    (hmp : st.mempool = tx :: rest)
    (hfail : dbOk = false ∨
      insertBlockTxs st.blocks st.txs
        { index := st.last_block_index + 1, timestamp := ts,
          prev_hash := st.last_block_hash, current_hash := block_hash,
          nonce := nonce, miner_id := st.node_id, signature := sig }
        [txRowOf block_hash ts tx] = none) :
    onBlockMined st block_hash nonce ts sig pem dbOk
      = ({ st with mempool := rest }, none, none) := by
  unfold onBlockMined
  rw [hmp]
  rcases hfail with hdb | hins
  · subst hdb
    simp
  · cases dbOk
    · simp
    · simp [hins]

/-- Witness for `mined_block_db_failure`: `nodeA` mines, the DB write
raises, and the single mempool entry is lost. -/
theorem mined_block_db_failure_witness :
    onBlockMined nodeA "00ff" 3 "2026-01-01T00:00:09" "SIG" "PEM" false
      = ({ nodeA with mempool := [] }, none, none) :=
  mined_block_db_failure nodeA txA [] "00ff" 3 "2026-01-01T00:00:09" "SIG"
    "PEM" false rfl (Or.inl rfl)

/-- Claim C1 counterexample: `_handle_new_block` never recomputes the
hash.  With an accepting signature oracle, `nodeA` accepts and appends
`payloadA`, whose `current_hash` `"deadbeef"` does not rebind to its
claimed `(prev_hash, timestamp, index, tx, nonce)`: for every hash oracle
whose digest at that canonical input is 64 characters long — as every
SHA-256 hex digest is — the recomputed hash differs from the 8-character
`"deadbeef"`, yet the block lands in the ledger. -/
theorem handle_new_block_no_rebind_cex :
    (handleNewBlock (fun _ _ _ => true) nodeA payloadA).2 = true ∧
    (handleNewBlock (fun _ _ _ => true) nodeA payloadA).1.blocks.map
      BlockRow.current_hash = ["deadbeef"] ∧
    (∀ g : String → String,
      (recomputedHash g (zeros 64) "2026-01-01T00:00:05" 0
        txA.data 0).length = 64 →
      recomputedHash g (zeros 64) "2026-01-01T00:00:05" 0 txA.data 0
        ≠ "deadbeef") := by
  refine ⟨by decide, by decide, ?_⟩
  intro g hg h
  rw [h] at hg
  exact absurd hg (by decide)

/-- Claim C1 (amended): `_handle_new_block` accepts — and then appends —
a block exactly when the required fields are present, `public_key_pem` is
non-empty, the PoW prefix holds (I2), the signature verifies (I3), the
chain link holds (I1), a timestamp is present and the index is fresh in
the ledger.  No condition involves recomputing the hash: invariant I4 is
not checked, so a block whose `current_hash` does not rebind to its
contents is appended whenever the conditions below hold. -/
theorem handle_new_block_accept_iff
    (verify : String → String → String → Bool)
    (st : NodeState) (p : BlockPayload) :
    (handleNewBlock verify st p).2 = true ↔
      ∃ bi ch nonce mid sig pem ts,
        p.index = some bi ∧ p.current_hash = some ch ∧
        p.nonce = some nonce ∧ p.miner_id = some mid ∧
        p.signature = some sig ∧ p.public_key_pem = some pem ∧
        pem ≠ "" ∧
        strStartsWith ch (zeros st.difficulty) = true ∧
        verify pem ch sig = true ∧
        bi = st.last_block_index + 1 ∧
        p.prev_hash = some st.last_block_hash ∧
        p.timestamp = some ts ∧
        st.blocks.any (fun r => r.index = bi) = false := by
  constructor
  · intro h
    unfold handleNewBlock at h
    rcases hindex : p.index with _ | bi
    · rw [hindex] at h
      exact Bool.noConfusion h
    rw [hindex] at h
    rcases hch : p.current_hash with _ | ch
    · rw [hch] at h
      exact Bool.noConfusion h
    rw [hch] at h
    rcases hnonce : p.nonce with _ | nonce
    · rw [hnonce] at h
      exact Bool.noConfusion h
    rw [hnonce] at h
    rcases hmid : p.miner_id with _ | mid
    · rw [hmid] at h
      exact Bool.noConfusion h
    rw [hmid] at h
    rcases hsig : p.signature with _ | sig
    · rw [hsig] at h
      exact Bool.noConfusion h
    rw [hsig] at h
    rcases hkey : p.public_key_pem with _ | pem
    · rw [hkey] at h
      exact Bool.noConfusion h
    rw [hkey] at h
    dsimp only at h
    by_cases hpem : pem = ""
    · rw [if_pos hpem] at h
      exact Bool.noConfusion h
    rw [if_neg hpem] at h
    by_cases hpow : strStartsWith ch (zeros st.difficulty) = true
    case neg =>
      have hf : strStartsWith ch (zeros st.difficulty) = false :=
        Bool.of_not_eq_true hpow
      rw [hf] at h
      exact Bool.noConfusion h
    simp only [hpow, Bool.not_true, Bool.false_eq_true, if_false] at h
    by_cases hver : verify pem ch sig = true
    case neg =>
      have hf : verify pem ch sig = false := Bool.of_not_eq_true hver
      rw [hf] at h
      exact Bool.noConfusion h
    simp only [hver, Bool.not_true, Bool.false_eq_true, if_false] at h
    by_cases hbi : bi = st.last_block_index + 1
    case neg =>
      rw [if_pos hbi] at h
      exact Bool.noConfusion h
    rw [if_neg (by simp [hbi])] at h
    by_cases hprev : p.prev_hash = some st.last_block_hash
    case neg =>
      rw [if_pos hprev] at h
      exact Bool.noConfusion h
    rw [if_neg (by simp [hprev])] at h
    rcases hts : p.timestamp with _ | ts
    · rw [hts] at h
      exact Bool.noConfusion h
    rw [hts] at h
    dsimp only at h
    by_cases hfresh : st.blocks.any (fun r => r.index = bi) = false
    · exact ⟨bi, ch, nonce, mid, sig, pem, ts, rfl, rfl, rfl, rfl,
        rfl, rfl, hpem, hpow, hver, hbi, hprev, rfl, hfresh⟩
    · have hfresh' : st.blocks.any (fun r => r.index = bi) = true := by
        cases hany : st.blocks.any (fun r => r.index = bi)
        · exact absurd hany hfresh
        · rfl
      have hins : insertBlockTxs st.blocks st.txs
          { index := bi, timestamp := ts,
            prev_hash := st.last_block_hash, current_hash := ch,
            nonce := nonce, miner_id := mid, signature := sig }
          (p.transactions.map (txRowOf ch ts)) = none := by
        unfold insertBlockTxs
        simp [hfresh']
      rw [hins] at h
      exact Bool.noConfusion h
  · rintro ⟨bi, ch, nonce, mid, sig, pem, ts, hindex, hch, hnonce, hmid,
      hsig, hkey, hpem, hpow, hver, hbi, hprev, hts, hfresh⟩
    subst hbi
    unfold handleNewBlock
    rw [hindex, hch, hnonce, hmid, hsig, hkey, hts, hprev]
    have hins : insertBlockTxs st.blocks st.txs
        { index := st.last_block_index + 1, timestamp := ts,
          prev_hash := st.last_block_hash, current_hash := ch,
          nonce := nonce, miner_id := mid, signature := sig }
        (p.transactions.map (txRowOf ch ts))
        = some (st.blocks ++
            [{ index := st.last_block_index + 1, timestamp := ts,
               prev_hash := st.last_block_hash, current_hash := ch,
               nonce := nonce, miner_id := mid, signature := sig }],
            st.txs ++ p.transactions.map (txRowOf ch ts)) := by
      unfold insertBlockTxs
      simp [hfresh]
    simp [hpem, hpow, hver, hins]

/-! ## Confirmation pipeline
(`gateway_server.handle` block_confirmation branch +
`_record_block_confirmation`, and the app server's
`_start_block_confirmation_listener`). -/

/-- The structured `data` dict of a confirmed transaction as the
confirmation consumer reads it (`.get` of absent keys gives `none`). -/
structure ConfTxData where
  from_user : Option String
  to_user : Option String
  amount : Option ℚ
  price : Option ℚ
  asset_id : Option String
  tx_id : Option String
  deriving Repr, DecidableEq

/-- One transaction inside a `block_confirmation` message. -/
structure ConfTx where
  sender : Option String
  data : Option ConfTxData
  deriving Repr, DecidableEq

/-- A `block_confirmation` message as it travels node → gateway → app
server. -/
structure Confirmation where
  block_index : ℤ
  block_hash : String
  miner_id : String
  node_id : String
  timestamp : String
  transactions : List ConfTx
  deriving Repr, DecidableEq

/-- `_record_block_confirmation`, blocks side: `INSERT OR IGNORE INTO
blocks (block_hash UNIQUE NOT NULL, …)` — a duplicate `block_hash` makes
the insert a no-op.  (The function also best-effort records per-tx rows
and assets in the shared DB; they take no part in any claim and are
elided.)  The gateway blocks table is modelled by its `block_hash`
column. -/
def recordBlockConfirmation (db : List String) (msg : Confirmation) :
    List String :=
  if msg.block_hash ∈ db then db else db ++ [msg.block_hash]

/-- The `block_confirmation` branch of the gateway's `handle`:
`_record_block_confirmation(msg)` then — unconditionally —
`notify_server(msg)`.  Returns the new blocks table and the messages
forwarded to the app server. -/
def gatewayConfirmStep (db : List String) (msg : Confirmation) :
    List String × List Confirmation :=
  (recordBlockConfirmation db msg, [msg])

/-- A sequence of confirmations arriving at the gateway. -/
def gatewayRun (db : List String) :
    List Confirmation → List String × List Confirmation
  | [] => (db, [])
  | msg :: rest =>
    let s := gatewayConfirmStep db msg
    let r := gatewayRun s.1 rest
    (r.1, s.2 ++ r.2)

/-- Python `a or b` over optional strings (`None` and `""` are falsy). -/
def pyOr (a b : Option String) : Option String :=
  match a with
  | some s => if s = "" then b else some s
  | none => b

/-- The app-server state the confirmation consumer mutates: wallets,
asset owners (`marketplace_items.username` keyed by asset id), the tx
status map, plus counters of the two side-effects the idempotency claim
speaks about — successfully applied wallet transfers and notification
emissions. -/
structure AppState where
  users : List (String × ℚ)
  owners : List (String × String)
  txmap : List (String × TxInfo)
  transfersApplied : ℕ
  notificationsEmitted : ℕ
  deriving Repr, DecidableEq

/-- One transaction of a received `block_confirmation`, as processed by
`_start_block_confirmation_listener`: extract
`from = data.get('from') or sender`, `to`, `amount` (falling back to
`price`), `asset_id`, `tx_id`; skip unless `from` is truthy and `to` and
`amount` are present; apply `transfer`; on success update the asset owner
(when `asset_id` is truthy) and drive the status to `confirmed`, else to
`failed` with the transfer's message (both through `_set_tx_status`,
whose notification emission is counted). -/
def processConfTx (now : ℕ) (st : AppState) (tx : ConfTx) : AppState :=
  let d : ConfTxData := tx.data.getD ⟨none, none, none, none, none, none⟩
  let amountOpt : Option ℚ :=
    match d.amount with
    | some a => some a
    | none => d.price
  match pyOr d.from_user tx.sender, d.to_user, amountOpt with
  | some fu, some tu, some amt =>
    if fu = "" then st
    else
      let r := transfer st.users fu tu amt
      if r.2.1 then
        let st1 : AppState :=
          { st with users := r.1,
                    transfersApplied := st.transfersApplied + 1 }
        let st2 : AppState :=
          match d.asset_id with
          | some aid =>
            if aid = "" then st1
            else { st1 with owners := dbUpdate st1.owners aid tu }
          | none => st1
        match d.tx_id with
        | some tid =>
          if tid = "" then st2
          else
            let m := mapSetTxStatus st2.txmap tid "confirmed"
              (some "Transaction confirmed") now
            { st2 with txmap := m.1,
                       notificationsEmitted := st2.notificationsEmitted +
                         (if m.2 then 1 else 0) }
        | none => st2
      else
        match d.tx_id with
        | some tid =>
          if tid = "" then { st with users := r.1 }
          else
            let m := mapSetTxStatus st.txmap tid "failed" (some r.2.2) now
            { st with users := r.1, txmap := m.1,
                      notificationsEmitted := st.notificationsEmitted +
                        (if m.2 then 1 else 0) }
        | none => { st with users := r.1 }
  | _, _, _ => st

/-- The whole handling of one forwarded confirmation: the listener loops
over `msg.get('transactions', [])`. -/
def appProcessConfirmation (now : ℕ) (st : AppState) (msg : Confirmation) :
    AppState :=
  msg.transactions.foldl (processConfTx now) st

/-- End to end: confirmations reach the gateway, which records and
forwards them; the app server consumes each forwarded message. -/
def endToEnd (now : ℕ) (db : List String) (st : AppState)
    (msgs : List Confirmation) : List String × AppState :=
  let g := gatewayRun db msgs
  (g.1, g.2.foldl (appProcessConfirmation now) st)

/-- A one-transaction purchase confirmation (the shape
`_send_block_confirmation` emits for a mined purchase). -/
def oneTxConfirmation (bh f t : String) (amt : ℚ) (aid tid : String) :
    Confirmation :=
  { block_index := 0, block_hash := bh, miner_id := "m", node_id := "n",
    timestamp := "T",
    transactions := [{ sender := some f,
                       data := some { from_user := some f,
                                      to_user := some t,
                                      amount := some amt, price := none,
                                      asset_id := some aid,
                                      tx_id := some tid } }] }

theorem transfer_two_users (f t : String) (b1 b2 amt : ℚ)
    (hft : f ≠ t) (hamt : ¬ amt ≤ 0) (hb1 : ¬ b1 < amt) :
    transfer [(f, b1), (t, b2)] f t amt
      = ([(f, b1 - amt), (t, b2 + amt)], true,
         "Transferred " ++ toString amt ++ " from " ++ f ++ " to " ++ t) := by
  unfold transfer
  simp [dbLookup, dbUpdate, hft, Ne.symm hft, hamt, hb1]

theorem processConfTx_purchase (now : ℕ) (f t aid tid : String)
    (sender : Option String) (amt b1 b2 : ℚ) (info0 : TxInfo)
    (own0 : List (String × String))
    (txmore : List (String × TxInfo)) (tc nc : ℕ)
    (hft : f ≠ t) (hf : f ≠ "") (htid : tid ≠ "") (haid : aid ≠ "")
    (hamt : ¬ amt ≤ 0) (hb1 : ¬ b1 < amt) :
    processConfTx now
      { users := [(f, b1), (t, b2)], owners := own0,
        txmap := (tid, info0) :: txmore, transfersApplied := tc,
        notificationsEmitted := nc }
      { sender := sender,
        data := some { from_user := some f, to_user := some t,
                       amount := some amt, price := none,
                       asset_id := some aid, tx_id := some tid } }
      = { users := [(f, b1 - amt), (t, b2 + amt)],
          owners := dbUpdate own0 aid t,
          txmap := (tid,
            { status := "confirmed", message := "Transaction confirmed",
              created_at := info0.created_at, notified := true })
            :: dbUpdate txmore tid
              { status := "confirmed",
                message := "Transaction confirmed",
                created_at := info0.created_at, notified := true },
          transfersApplied := tc + 1,
          notificationsEmitted :=
            nc + (if info0.notified then 0 else 1) } := by
  unfold processConfTx
  simp only [Option.getD_some, pyOr, hf, if_false]
  rw [transfer_two_users f t b1 b2 amt hft hamt hb1]
  simp only [htid, haid, if_false]
  simp [mapSetTxStatus, setTxStatusInfo, dbLookup, dbUpdate, isTerminal,
    hf, htid, haid]
  cases hn : info0.notified <;> simp [hn]

theorem duplicate_delivery_run (now : ℕ) (bh f t aid tid : String)
    (amt b1 b2 : ℚ) (info0 : TxInfo) (own0 : List (String × String))
    (hft : f ≠ t) (hf : f ≠ "") (htid : tid ≠ "") (haid : aid ≠ "")
    (hamt : ¬ amt ≤ 0) (hb1 : ¬ b1 < amt) (hb1s : ¬ b1 - amt < amt)
    (hnot : info0.notified = false) :
    endToEnd now []
      { users := [(f, b1), (t, b2)], owners := own0,
        txmap := [(tid, info0)], transfersApplied := 0,
        notificationsEmitted := 0 }
      [oneTxConfirmation bh f t amt aid tid,
       oneTxConfirmation bh f t amt aid tid]
      = ([bh],
         { users := [(f, b1 - amt - amt), (t, b2 + amt + amt)],
           owners := dbUpdate (dbUpdate own0 aid t) aid t,
           txmap := [(tid, { status := "confirmed",
                             message := "Transaction confirmed",
                             created_at := info0.created_at,
                             notified := true })],
           transfersApplied := 2, notificationsEmitted := 1 }) := by
  unfold endToEnd
  have hg : gatewayRun []
      [oneTxConfirmation bh f t amt aid tid,
       oneTxConfirmation bh f t amt aid tid]
      = ([bh], [oneTxConfirmation bh f t amt aid tid,
                oneTxConfirmation bh f t amt aid tid]) := by
    simp [gatewayRun, gatewayConfirmStep, recordBlockConfirmation,
      oneTxConfirmation]
  rw [hg]
  dsimp only
  rw [List.foldl_cons, List.foldl_cons, List.foldl_nil]
  unfold appProcessConfirmation oneTxConfirmation
  dsimp only
  rw [List.foldl_cons, List.foldl_nil, List.foldl_cons, List.foldl_nil]
  rw [processConfTx_purchase now f t aid tid (some f) amt b1 b2 info0 own0
    [] 0 0 hft hf htid haid hamt hb1]
  rw [processConfTx_purchase now f t aid tid (some f) amt (b1 - amt)
    (b2 + amt) _ (dbUpdate own0 aid t) _ _ _ hft hf htid haid hamt hb1s]
  simp [hnot, dbUpdate]

/-- Claim C2 (amended): the gateway's `UNIQUE(block_hash)` constraint
deduplicates only its own block record (a second insert of the same hash
is a no-op on that table); the gateway still forwards every received
confirmation to the app server, and the app server applies one wallet
transfer per forwarded copy.  So two confirmations carrying the same
`block_hash` leave one gateway ledger row but apply the wallet transfer
twice (the sender pays twice whenever its balance still suffices); only
the notification is emitted exactly once, guarded by the `notified`
flag. -/
theorem duplicate_confirmation_effects (now : ℕ) (bh f t aid tid : String)
    (amt b1 b2 : ℚ) (info0 : TxInfo) (own0 : List (String × String))
    (hft : f ≠ t) (hf : f ≠ "") (htid : tid ≠ "") (haid : aid ≠ "")
    (hamt : ¬ amt ≤ 0) (hb1 : ¬ b1 < amt) (hb1s : ¬ b1 - amt < amt)
    (hnot : info0.notified = false) :
    (∀ db msg, msg.block_hash ∈ db →
      recordBlockConfirmation db msg = db) ∧
    (∀ db msgs, (gatewayRun db msgs).2 = msgs) ∧
    (endToEnd now []
      { users := [(f, b1), (t, b2)], owners := own0,
        txmap := [(tid, info0)], transfersApplied := 0,
        notificationsEmitted := 0 }
      [oneTxConfirmation bh f t amt aid tid,
       oneTxConfirmation bh f t amt aid tid]
      = ([bh],
         { users := [(f, b1 - amt - amt), (t, b2 + amt + amt)],
           owners := dbUpdate (dbUpdate own0 aid t) aid t,
           txmap := [(tid, { status := "confirmed",
                             message := "Transaction confirmed",
                             created_at := info0.created_at,
                             notified := true })],
           transfersApplied := 2, notificationsEmitted := 1 })) := by
  refine ⟨?_, ?_, ?_⟩
  · intro db msg hmem
    unfold recordBlockConfirmation
    rw [if_pos hmem]
  · intro db msgs
    induction msgs generalizing db with
    | nil => rfl
    | cons m rest ih => simp [gatewayRun, gatewayConfirmStep, ih]
  · exact duplicate_delivery_run now bh f t aid tid amt b1 b2 info0 own0
      hft hf htid haid hamt hb1 hb1s hnot

/-- Witness for `duplicate_confirmation_effects`: carol (balance 30) buys
asset fox from dave for 10; the same confirmation is delivered twice. -/
theorem duplicate_confirmation_effects_witness :
    endToEnd 7 []
      { users := [("carol", 30), ("dave", 5)], owners := [("fox", "carol")],
        txmap := [("T9", { status := "submitted", message := "",
                           created_at := 2, notified := false })],
        transfersApplied := 0, notificationsEmitted := 0 }
      [oneTxConfirmation "beef" "carol" "dave" 10 "fox" "T9",
       oneTxConfirmation "beef" "carol" "dave" 10 "fox" "T9"]
      = (["beef"],
         { users := [("carol", 30 - 10 - 10), ("dave", 5 + 10 + 10)],
           owners := dbUpdate (dbUpdate [("fox", "carol")] "fox" "dave")
             "fox" "dave",
           txmap := [("T9", { status := "confirmed",
                              message := "Transaction confirmed",
                              created_at := 2, notified := true })],
           transfersApplied := 2, notificationsEmitted := 1 }) :=
  (duplicate_confirmation_effects 7 "beef" "carol" "dave" "fox" "T9"
    10 30 5 { status := "submitted", message := "", created_at := 2,
              notified := false } [("fox", "carol")]
    (by decide) (by decide) (by decide) (by decide)
    (by norm_num) (by norm_num) (by norm_num) rfl).2.2

/-- Claim C2 counterexample: two `block_confirmation` messages with the
same `block_hash "deadbeef"`: the gateway records the hash once, yet the
app server applies the wallet transfer twice (alice 100 → 50, bob 0 → 50);
two is not the "exactly one wallet transfer" the claim demands, so the
second confirmation is not a no-op end to end (only the notification
fires once). -/
theorem duplicate_confirmation_double_transfer_cex :
    (endToEnd 5 []
      { users := [("alice", 100), ("bob", 0)], owners := [("deer", "alice")],
        txmap := [("T1", { status := "submitted", message := "",
                           created_at := 0, notified := false })],
        transfersApplied := 0, notificationsEmitted := 0 }
      [oneTxConfirmation "deadbeef" "alice" "bob" 25 "deer" "T1",
       oneTxConfirmation "deadbeef" "alice" "bob" 25 "deer" "T1"]
      = (["deadbeef"],
         { users := [("alice", 50), ("bob", 50)],
           owners := [("deer", "bob")],
           txmap := [("T1", { status := "confirmed",
                              message := "Transaction confirmed",
                              created_at := 0, notified := true })],
           transfersApplied := 2, notificationsEmitted := 1 })) ∧
    (2 : ℕ) ≠ 1 := by
  constructor
  · have h := duplicate_delivery_run 5 "deadbeef" "alice" "bob" "deer" "T1"
      25 100 0 { status := "submitted", message := "", created_at := 0,
                 notified := false } [("deer", "alice")]
      (by decide) (by decide) (by decide) (by decide)
      (by norm_num) (by norm_num) (by norm_num) rfl
    rw [h]
    norm_num [dbUpdate]
  · decide

end Aurex
